import Mathlib

/-!
Verification of the TMSU file-tagging engine against its specification.

The definitions below are a shallow embedding of the repository's code:
the storage layer (`value.go`, `implication.go`) and the tag-apply
command (`tagPaths`, `tagFrom`, `tagPath`,
`removeAlreadyAppliedTagValuePairs`).  SQL tables are embedded as lists
of rows in table order; a Go function that can panic or return an error
is embedded returning `Option`/`Except`.  Components of the repository
that are exercised by the claims but whose source is not part of this
snapshot (the query lexer/parser/evaluator, the storage-layer closure
helpers, name validation) are modelled from the specification; each such
definition carries a doc comment starting `Modelled from the spec:`.
-/

/-- A row of the `tag` table: `{id, name}`. -/
structure Tag where
  id : Nat
  name : String
deriving DecidableEq, Repr

/-- A row of the `value` table: `{id, name}`.  Value id 0 is the reserved
"no value" sentinel and is never physically stored. -/
structure Value where
  id : Nat
  name : String
deriving DecidableEq, Repr

/-- A row of the `file` table.  Only the columns the claims depend on are
carried (`fingerprint`, `mod_time`, `size` and `is_dir` play no role in
any claim below). -/
structure File where
  id : Nat
  path : String
deriving DecidableEq, Repr

/-- A row of the `file_tag` table: `(file_id, tag_id, value_id)`. -/
structure FileTag where
  fileId : Nat
  tagId : Nat
  valueId : Nat
deriving DecidableEq, Repr

/-- The `TagValuePair` type of the tag-apply pipeline. -/
structure TagValuePair where
  tagId : Nat
  valueId : Nat
deriving DecidableEq, Repr

/-- The database state: each SQL table as a list of rows in table order.
An `implication` row is the pair `(tag_id, implied_tag_id)`. -/
structure DB where
  files : List File
  tags : List Tag
  values : List Value
  fileTags : List FileTag
  implications : List (Nat × Nat)
deriving DecidableEq, Repr

/-- An `entities.Implication`: an implication row joined with the two
`tag` rows, as returned by the queries in `implication.go`. -/
structure Implication where
  tag : Tag
  impliedTag : Tag
deriving DecidableEq, Repr

/-- Looks up a tag row by id (the `implication.tag_id = t1.id` join). -/
def tagById (db : DB) (id : Nat) : Option Tag :=
  db.tags.find? (fun t => t.id == id)

/-- Embeds `Database.ImplicationsForTags` (implication.go).  The Go
function builds an `IN (?,?,...)` clause with
`strings.Repeat(",?", len(tagIds)-1)`; for the empty id list the repeat
count is -1 and `strings.Repeat` panics, embedded here as `none`.
Otherwise the query selects the implication rows whose `tag_id` is in
the list, joined with the `tag` table on both columns. -/
def ImplicationsForTags (db : DB) (tagIds : List Nat) : Option (List Implication) :=
  if tagIds.length == 0 then none
  else some (db.implications.filterMap (fun r =>
    if tagIds.contains r.1 then
      match tagById db r.1, tagById db r.2 with
      | some t1, some t2 => some ⟨t1, t2⟩
      | _, _ => none
    else none))

/-- Embeds `Database.ValuesByIds` (value.go).  As with
`ImplicationsForTags`, the empty id list makes `strings.Repeat` panic
(`none`); otherwise the rows with ids in the list are returned. -/
def ValuesByIds (db : DB) (ids : List Nat) : Option (List Value) :=
  if ids.length == 0 then none
  else some (db.values.filter (fun v => ids.contains v.id))

/-- Embeds `Database.ValuesByNames` (value.go), which starts with an
explicit `if len(names) == 0 { return empty, nil }` guard. -/
def ValuesByNames (db : DB) (names : List String) : Option (List Value) :=
  if names.length == 0 then some []
  else some (db.values.filter (fun v => names.contains v.name))

/-- Embeds `Database.DeleteUnusedValues` (value.go).  `execFails`
injects a failure of the underlying `db.Exec`; in the source the
`err != nil` branch reads `return nil`, so the error is discarded and
the function reports success.  On a successful exec, the values in the
list that no `file_tag` row uses are deleted.  The returned `Option
String` is the Go error value (`none` = `nil`). -/
def DeleteUnusedValues (db : DB) (execFails : Bool) (valueIds : List Nat) :
    DB × Option String :=
  if valueIds.length == 0 then (db, none)
  else if execFails then (db, none)
  else ({db with values := db.values.filter (fun v =>
          !(valueIds.contains v.id && !(db.fileTags.any (fun ft => ft.valueId == v.id))))},
        none)

/-- Embeds `Database.AddImplication` (implication.go):
`INSERT OR IGNORE INTO implication` — a row whose primary key
`(tag_id, implied_tag_id)` is already present is ignored, otherwise the
row is appended.  There is no guard against `tagId = impliedTagId`. -/
def AddImplication (rel : List (Nat × Nat)) (tagId impliedTagId : Nat) :
    List (Nat × Nat) :=
  if rel.contains (tagId, impliedTagId) then rel
  else rel ++ [(tagId, impliedTagId)]

/-- Embeds `Database.UpdateImplicationsForTagId` (implication.go): first
the rows linking the two tags in either direction are deleted (the
source comment: prevent a tag implying itself), then `tag_id` and
`implied_tag_id` columns equal to `implyingTagId` are rewritten to
`impliedTagId`. -/
def UpdateImplicationsForTagId (rel : List (Nat × Nat))
    (implyingTagId impliedTagId : Nat) : List (Nat × Nat) :=
  let afterDelete := rel.filter (fun r =>
    !((r.1 == implyingTagId && r.2 == impliedTagId) ||
      (r.1 == impliedTagId && r.2 == implyingTagId)))
  let afterFirstUpdate := afterDelete.map (fun r =>
    if r.1 == implyingTagId then (impliedTagId, r.2) else r)
  afterFirstUpdate.map (fun r =>
    if r.2 == implyingTagId then (r.1, impliedTagId) else r)

/-- The implication relation is irreflexive: no tag implies itself. -/
def IrreflexiveRel (rel : List (Nat × Nat)) : Prop :=
  ∀ r ∈ rel, r.1 ≠ r.2

/-- Claim C9: `ValuesByIds` and `ImplicationsForTags` panic on the empty
input list (negative `strings.Repeat` count) instead of returning the
empty result, whereas `ValuesByNames` explicitly returns the empty set
for an empty name list. -/
theorem empty_list_panic_behaviour (db : DB) :
    ValuesByIds db [] = none
    ∧ ImplicationsForTags db [] = none
    ∧ ValuesByNames db [] = some [] := by
  refine ⟨rfl, rfl, rfl⟩

/-- Claim C10: `DeleteUnusedValues` returns `nil` for every input list
of value ids, even when the underlying database delete fails — the
storage error is silently discarded. -/
theorem deleteUnusedValues_discards_error (db : DB) (execFails : Bool)
    (valueIds : List Nat) :
    (DeleteUnusedValues db execFails valueIds).2 = none := by
  unfold DeleteUnusedValues
  by_cases h0 : valueIds.length == 0 <;> by_cases h1 : execFails <;> simp [h0, h1]

/-- Counterexample to claim C2 as stated: `AddImplication` has no guard
against reflexive pairs, so inserting `(5, 5)` into the empty relation
leaves the relation containing the reflexive pair `(5, 5)`. -/
theorem addImplication_reflexive_cex :
    (AddImplication [] 5 5).contains (5, 5) = true := by decide

/-- Claim C2 (amended): inserting an already-present pair leaves the
relation unchanged rather than failing; `AddImplication` of a
non-reflexive pair preserves irreflexivity, as does
`UpdateImplicationsForTagId` (the delete step removes the pairs linking
the two tags before the columns are rewritten); but `AddImplication`
itself does not reject a reflexive pair. -/
theorem implication_ops_amended (rel : List (Nat × Nat)) (a b : Nat) :
    (rel.contains (a, b) = true → AddImplication rel a b = rel)
    ∧ (IrreflexiveRel rel → a ≠ b → IrreflexiveRel (AddImplication rel a b))
    ∧ (∀ x y, IrreflexiveRel rel →
        IrreflexiveRel (UpdateImplicationsForTagId rel x y)) := by
  refine ⟨?_, ?_, ?_⟩
  · intro h
    unfold AddImplication
    rw [h]
    simp
  · intro hirr hab
    intro r hr
    unfold AddImplication at hr
    by_cases hc : rel.contains (a, b) = true
    · rw [if_pos hc] at hr
      exact hirr r hr
    · rw [if_neg hc] at hr
      rcases List.mem_append.mp hr with hmem | hmem
      · exact hirr r hmem
      · simp at hmem
        subst hmem
        exact hab
  · intro x y hirr r hr
    unfold UpdateImplicationsForTagId at hr
    simp only [List.mem_map, List.mem_filter] at hr
    obtain ⟨r1, ⟨⟨r0, ⟨hr0mem, hr0cond⟩, hr01⟩, hr1⟩⟩ := hr
    have h0 : r0.1 ≠ r0.2 := hirr r0 hr0mem
    have hcond : ¬((r0.1 = x ∧ r0.2 = y) ∨ (r0.1 = y ∧ r0.2 = x)) := by
      intro hcases
      rcases hcases with ⟨h1, h2⟩ | ⟨h1, h2⟩ <;>
        simp [h1, h2] at hr0cond
    by_cases hp : r0.1 = x
    · have hq : r0.2 ≠ y := by
        intro hq
        exact hcond (Or.inl ⟨hp, hq⟩)
      have hqx : r0.2 ≠ x := by
        intro hqx
        exact h0 (hp.trans hqx.symm)
      subst hr01
      simp [hp, hqx] at hr1
      subst hr1
      simpa using fun h => hq h.symm
    · subst hr01
      simp [hp] at hr1
      by_cases hq : r0.2 = x
      · simp [hq] at hr1
        subst hr1
        simp
        intro h1
        exact hcond (Or.inr ⟨h1, hq⟩)
      · simp [hq] at hr1
        subst hr1
        simpa using h0

/-- Witness for the amended claim C2 at concrete inputs. -/
theorem implication_ops_amended_witness :
    AddImplication [(1, 2)] 1 2 = [(1, 2)]
    ∧ IrreflexiveRel (AddImplication [(1, 2)] 2 3)
    ∧ IrreflexiveRel (UpdateImplicationsForTagId [(1, 2), (2, 1), (2, 3)] 1 2) := by
  have h := implication_ops_amended [(1, 2)] 1 2
  have h2 := implication_ops_amended [(1, 2)] 2 3
  have h3 := implication_ops_amended [(1, 2), (2, 1), (2, 3)] 0 0
  refine ⟨h.1 (by decide), h2.2.1 ?_ (by decide), h3.2.2 1 2 ?_⟩
  · intro r hr
    simp at hr
    subst hr
    decide
  · intro r hr
    simp at hr
    rcases hr with h | h | h <;> subst h <;> decide

/-- Modelled from the spec (section 4.C): one worklist step of the
implication-closure computation.  `visited` is the set built so far,
`work` the worklist; a revisited node is skipped, otherwise its direct
consequents are pushed. -/
def closureStep (rows : List (Nat × Nat)) (visited work : List Nat) (fuel : Nat) :
    List Nat :=
  match fuel, work with
  | 0, _ => visited
  | _, [] => visited
  | Nat.succ n, t :: rest =>
    if visited.contains t then closureStep rows visited rest n
    else closureStep rows (visited ++ [t])
        (rest ++ rows.filterMap (fun r => if r.1 == t then some r.2 else none)) n

/-- Modelled from the spec (section 4.C): `tagClosure(S)` is the least
fixpoint of `S ∪ {b | (a,b) ∈ implication, a ∈ S}`, computed with a
worklist and a visited set so that cycles terminate.  Every row fires at
most once (when its antecedent is first visited), so
`S.length + rows.length + 1` worklist pops suffice as fuel. -/
def tagClosure (rows : List (Nat × Nat)) (s : List Nat) : List Nat :=
  closureStep rows [] s (s.length + rows.length + 1)

/-- Embeds the `file_tag` sides of `Storage.FileTagsByFileId`.  The
explicit rows are those with the given `file_id`.  Modelled from the
spec for `includeImplied = true` (section 4.B): the result additionally
contains a synthetic row, with value id 0, for every tag reachable
through the implication closure that is not already explicit. -/
def FileTagsByFileId (db : DB) (fileId : Nat) (includeImplied : Bool) :
    List FileTag :=
  let explicitRows := db.fileTags.filter (fun ft => ft.fileId == fileId)
  if includeImplied then
    explicitRows ++
      (tagClosure db.implications (explicitRows.map (fun ft => ft.tagId))).filterMap
        (fun t => if explicitRows.any (fun ft => ft.tagId == t) then none
                  else some ⟨fileId, t, 0⟩)
  else explicitRows

/-- Modelled from the spec: the storage-layer `ImplicationsForTags`
iterates the one-hop database query of section 4.B to fixpoint over the
closure of the tag set (section 4.C), returning every implication row
whose antecedent is reachable from the given tags. -/
def StorageImplicationsForTags (db : DB) (tagIds : List Nat) : List (Nat × Nat) :=
  db.implications.filter (fun r => (tagClosure db.implications tagIds).contains r.1)

/-- Embeds `entities.Implications.Implies`: whether some returned
implication row has the given tag as its consequent. -/
def impliesTag (rows : List (Nat × Nat)) (tagId : Nat) : Bool :=
  rows.any (fun r => r.2 == tagId)

/-- Embeds `entities.FileTags.Contains`: whether a row with the given
`(tag_id, value_id)` pair is present. -/
def ftsContains (fts : List FileTag) (tagId valueId : Nat) : Bool :=
  fts.any (fun ft => ft.tagId == tagId && ft.valueId == valueId)

/-- Embeds `removeAlreadyAppliedTagValuePairs` (tag command source): a
pair is dropped if the file already carries it, or if its value id is 0
and its tag is implied by the tags being applied. -/
def removeAlreadyAppliedTagValuePairs (db : DB) (tagValuePairs : List TagValuePair)
    (fileId : Nat) : List TagValuePair :=
  let existingFileTags := FileTagsByFileId db fileId false
  let tagIds := tagValuePairs.map (fun p => p.tagId)
  let newlyImpliedTags := StorageImplicationsForTags db tagIds
  tagValuePairs.filter (fun p =>
    !(ftsContains existingFileTags p.tagId p.valueId) &&
    !(p.valueId == 0 && impliesTag newlyImpliedTags p.tagId))

/-- Embeds the pair-filter stage of `tagPath` (tag command source):
`if !explicit { tagValuePairs = removeAlreadyAppliedTagValuePairs(...) }`. -/
def appliedPairs (db : DB) (tagValuePairs : List TagValuePair) (fileId : Nat)
    (explicitOpt : Bool) : List TagValuePair :=
  if explicitOpt then tagValuePairs
  else removeAlreadyAppliedTagValuePairs db tagValuePairs fileId

/-- Claim C1: without the explicit option, every pair actually applied
is neither already present on the file nor (when its value id is 0)
implied — over the closure of the applied tag set — by the pairs being
applied; with the explicit option no pair is dropped. -/
theorem tagApply_pair_filtering (db : DB) (pairs : List TagValuePair) (fileId : Nat) :
    (∀ p ∈ appliedPairs db pairs fileId false,
      ftsContains (FileTagsByFileId db fileId false) p.tagId p.valueId = false
      ∧ ¬(p.valueId = 0 ∧ ∃ r ∈ db.implications, r.2 = p.tagId ∧
            (tagClosure db.implications (pairs.map (fun q => q.tagId))).contains r.1 = true))
    ∧ appliedPairs db pairs fileId true = pairs := by
  constructor
  · intro p hp
    unfold appliedPairs removeAlreadyAppliedTagValuePairs at hp
    simp only [if_neg (Bool.false_ne_true), List.mem_filter, Bool.and_eq_true,
      Bool.not_eq_true'] at hp
    obtain ⟨hmem, h1, h2⟩ := hp
    refine ⟨h1, ?_⟩
    rintro ⟨hv0, r, hrmem, hr2, hrcl⟩
    have : (p.valueId == 0 && impliesTag
        (StorageImplicationsForTags db (pairs.map (fun q => q.tagId))) p.tagId) = true := by
      rw [Bool.and_eq_true]
      refine ⟨by simp [hv0], ?_⟩
      unfold impliesTag StorageImplicationsForTags
      rw [List.any_eq_true]
      refine ⟨r, List.mem_filter.mpr ⟨hrmem, hrcl⟩, by simp [hr2]⟩
    rw [this] at h2
    cases h2
  · rfl

/-- Witness for claim C1: a concrete invocation where one pair survives
the filter and satisfies both exclusion properties. -/
theorem tagApply_pair_filtering_witness :
    (⟨3, 7⟩ : TagValuePair) ∈ appliedPairs
        ⟨[⟨1, "/tmp/x"⟩], [⟨2, "old"⟩, ⟨3, "new"⟩], [⟨7, "v"⟩], [⟨1, 2, 0⟩], [(2, 3)]⟩
        [⟨2, 0⟩, ⟨3, 7⟩] 1 false
    ∧ ftsContains (FileTagsByFileId
        ⟨[⟨1, "/tmp/x"⟩], [⟨2, "old"⟩, ⟨3, "new"⟩], [⟨7, "v"⟩], [⟨1, 2, 0⟩], [(2, 3)]⟩
        1 false) 3 7 = false := by
  have h := (tagApply_pair_filtering
      ⟨[⟨1, "/tmp/x"⟩], [⟨2, "old"⟩, ⟨3, "new"⟩], [⟨7, "v"⟩], [⟨1, 2, 0⟩], [(2, 3)]⟩
      [⟨2, 0⟩, ⟨3, 7⟩] 1).1 ⟨3, 7⟩ (by decide)
  exact ⟨by decide, h.1⟩

/-- Embeds the pair-collection stage of `tagFrom` (tag command source):
the source file is looked up by path, its file-tags are retrieved with
`FileTagsByFileId(file.Id, true)` — implied tags included — and each row
becomes a `TagValuePair`.  `none` embeds the "path is not tagged"
error. -/
def tagFromPairs (db : DB) (fromPath : String) : Option (List TagValuePair) :=
  match db.files.find? (fun f => f.path == fromPath) with
  | none => none
  | some file =>
    some ((FileTagsByFileId db file.id true).map (fun ft => ⟨ft.tagId, ft.valueId⟩))

/-- Counterexample to claim C3 as stated: with file `/tmp/src` carrying
only tag 1 explicitly and the implication `1 → 2`, `tag --from=/tmp/src`
builds the pair list `[(1,0), (2,0)]` — the pair `(2,0)` is copied even
though tag 2 is reachable only through the implication relation. -/
theorem tagFrom_copies_implied_cex :
    tagFromPairs ⟨[⟨1, "/tmp/src"⟩], [⟨1, "a"⟩, ⟨2, "b"⟩], [], [⟨1, 1, 0⟩], [(1, 2)]⟩
        "/tmp/src" = some [⟨1, 0⟩, ⟨2, 0⟩]
    ∧ ([⟨1, 1, 0⟩] : List FileTag).all (fun ft => ft.tagId != 2) = true := by
  decide

/-- Claim C3 (amended): `tag --from=SRC` copies onto the target paths
the pairs for SRC's explicit file-tags and additionally a pair `(t, 0)`
for every tag `t` in the implication closure of SRC's explicit tags —
the file-tags are retrieved with `include_implied = true`. -/
theorem tagFrom_amended (db : DB) (fromPath : String) (file : File)
    (hfind : db.files.find? (fun f => f.path == fromPath) = some file) :
    ∃ ps, tagFromPairs db fromPath = some ps
      ∧ (∀ ft ∈ db.fileTags.filter (fun ft => ft.fileId == file.id),
          (⟨ft.tagId, ft.valueId⟩ : TagValuePair) ∈ ps)
      ∧ (∀ t ∈ tagClosure db.implications
            ((db.fileTags.filter (fun ft => ft.fileId == file.id)).map
              (fun ft => ft.tagId)),
          ∃ p ∈ ps, p.tagId = t) := by
  refine ⟨(FileTagsByFileId db file.id true).map (fun ft => ⟨ft.tagId, ft.valueId⟩),
    ?_, ?_, ?_⟩
  · unfold tagFromPairs
    rw [hfind]
  · intro ft hft
    refine List.mem_map.mpr ⟨ft, ?_, rfl⟩
    unfold FileTagsByFileId
    simp only [if_pos rfl]
    exact List.mem_append.mpr (Or.inl hft)
  · intro t ht
    by_cases hexp : (db.fileTags.filter (fun ft => ft.fileId == file.id)).any
        (fun ft => ft.tagId == t) = true
    · rw [List.any_eq_true] at hexp
      obtain ⟨ft, hftmem, hfteq⟩ := hexp
      refine ⟨⟨ft.tagId, ft.valueId⟩, List.mem_map.mpr ⟨ft, ?_, rfl⟩, by simpa using hfteq⟩
      unfold FileTagsByFileId
      simp only [if_pos rfl]
      exact List.mem_append.mpr (Or.inl hftmem)
    · refine ⟨⟨t, 0⟩, List.mem_map.mpr ⟨⟨file.id, t, 0⟩, ?_, rfl⟩, rfl⟩
      unfold FileTagsByFileId
      simp only [if_pos rfl]
      refine List.mem_append.mpr (Or.inr ?_)
      refine List.mem_filterMap.mpr ⟨t, ht, ?_⟩
      rw [if_neg ?_]
      exact fun hc => hexp hc
  

/-- Witness for the amended claim C3: on the counterexample database the
explicit pair `(1, 0)` and closure tag 2 both appear in the copied
list. -/
theorem tagFrom_amended_witness :
    ((⟨[⟨1, "/tmp/src"⟩], [⟨1, "a"⟩, ⟨2, "b"⟩], [], [⟨1, 1, 0⟩], [(1, 2)]⟩ :
        DB).files.find? (fun f => f.path == "/tmp/src") = some ⟨1, "/tmp/src"⟩)
    ∧ ∃ ps, tagFromPairs
        ⟨[⟨1, "/tmp/src"⟩], [⟨1, "a"⟩, ⟨2, "b"⟩], [], [⟨1, 1, 0⟩], [(1, 2)]⟩
        "/tmp/src" = some ps
      ∧ (∀ ft ∈ ([⟨1, 1, 0⟩] : List FileTag).filter (fun ft => ft.fileId == 1),
          (⟨ft.tagId, ft.valueId⟩ : TagValuePair) ∈ ps)
      ∧ (∀ t ∈ tagClosure [(1, 2)]
            ((([⟨1, 1, 0⟩] : List FileTag).filter (fun ft => ft.fileId == 1)).map
              (fun ft => ft.tagId)),
          ∃ p ∈ ps, p.tagId = t) := by
  exact ⟨by decide, tagFrom_amended
    ⟨[⟨1, "/tmp/src"⟩], [⟨1, "a"⟩, ⟨2, "b"⟩], [], [⟨1, 1, 0⟩], [(1, 2)]⟩
    "/tmp/src" ⟨1, "/tmp/src"⟩ (by decide)⟩

/-- Counterexample to claim C4 as stated: for the empty tag-id list the
claim promises the empty set of direct implications, but
`ImplicationsForTags` panics while building its SQL (embedded `none`)
rather than returning `some []`. -/
theorem implicationsForTags_empty_cex :
    ImplicationsForTags ⟨[], [⟨1, "a"⟩, ⟨2, "b"⟩], [], [], [(1, 2)]⟩ [] ≠ some []
    ∧ ImplicationsForTags ⟨[], [⟨1, "a"⟩, ⟨2, "b"⟩], [], [], [(1, 2)]⟩ [] = none := by
  decide

/-- Helper for claim C4: over any row list whose tag ids all resolve,
the id projection of the joined rows is the filter of the rows on
antecedent membership. -/
theorem joined_rows_project_to_filter (db : DB) (tagIds : List Nat) :
    ∀ rows : List (Nat × Nat),
      (∀ r ∈ rows, (tagById db r.1).isSome ∧ (tagById db r.2).isSome) →
      (rows.filterMap (fun r =>
        if tagIds.contains r.1 then
          match tagById db r.1, tagById db r.2 with
          | some t1, some t2 => some (⟨t1, t2⟩ : Implication)
          | _, _ => none
        else none)).map (fun i => (i.tag.id, i.impliedTag.id)) =
      rows.filter (fun r => tagIds.contains r.1) := by
  intro rows
  induction rows with
  | nil => intro _; rfl
  | cons r rest ih =>
    intro hint
    have hr := hint r (List.mem_cons_self r rest)
    have hrest : ∀ x ∈ rest, (tagById db x.1).isSome ∧ (tagById db x.2).isSome :=
      fun x hx => hint x (List.mem_cons_of_mem r hx)
    by_cases hc : tagIds.contains r.1 = true
    · obtain ⟨h1, h2⟩ := hr
      obtain ⟨t1, ht1⟩ := Option.isSome_iff_exists.mp h1
      obtain ⟨t2, ht2⟩ := Option.isSome_iff_exists.mp h2
      have ht1id : t1.id = r.1 := by
        have := List.find?_some ht1
        simpa using this
      have ht2id : t2.id = r.2 := by
        have := List.find?_some ht2
        simpa using this
      simp only [List.filterMap_cons, List.filter_cons]
      rw [if_pos hc, if_pos hc, ht1, ht2]
      simp only [List.map_cons, ih hrest, ht1id, ht2id]
    · simp only [List.filterMap_cons, List.filter_cons]
      rw [if_neg hc, if_neg (by simpa using hc)]
      exact ih hrest

/-- Claim C4 (amended): for every non-empty list of tag ids, and
whenever every implication row's two tag ids resolve in the `tag` table,
`ImplicationsForTags` returns exactly the direct one-hop implication
rows whose antecedent is in the list — no transitive expansion; for the
empty list it panics instead of returning the empty result. -/
theorem implicationsForTags_one_hop (db : DB) (tagIds : List Nat)
    (hne : tagIds ≠ [])
    (hint : ∀ r ∈ db.implications, (tagById db r.1).isSome ∧ (tagById db r.2).isSome) :
    ∃ rows, ImplicationsForTags db tagIds = some rows
      ∧ rows.map (fun i => (i.tag.id, i.impliedTag.id)) =
          db.implications.filter (fun r => tagIds.contains r.1) := by
  refine ⟨db.implications.filterMap (fun r =>
    if tagIds.contains r.1 then
      match tagById db r.1, tagById db r.2 with
      | some t1, some t2 => some ⟨t1, t2⟩
      | _, _ => none
    else none), ?_, ?_⟩
  · unfold ImplicationsForTags
    rw [if_neg (by simpa using hne)]
  · exact joined_rows_project_to_filter db tagIds db.implications hint

/-- Witness for the amended claim C4 at a concrete database. -/
theorem implicationsForTags_one_hop_witness :
    ∃ rows, ImplicationsForTags
        ⟨[], [⟨1, "a"⟩, ⟨2, "b"⟩, ⟨3, "c"⟩], [], [], [(1, 2), (2, 3)]⟩ [1] = some rows
      ∧ rows.map (fun i => (i.tag.id, i.impliedTag.id)) =
          ([(1, 2), (2, 3)] : List (Nat × Nat)).filter (fun r => [1].contains r.1) :=
  implicationsForTags_one_hop
    ⟨[], [⟨1, "a"⟩, ⟨2, "b"⟩, ⟨3, "c"⟩], [], [], [(1, 2), (2, 3)]⟩ [1]
    (by decide) (by decide)

/-- The classified outcome of `tagPath` for one path, as inspected by
the `switch` in `tagPaths` and `tagFrom`: `none` is success;
`permission` and `notFound` are the errors matched by `os.IsPermission`
and `os.IsNotExist`; `other` is the default case. -/
inductive PathError
  | permission
  | notFound
  | other (msg : String)
deriving DecidableEq, Repr

/-- Whether a per-path outcome is converted into a warning. -/
def isWarningOutcome : Option PathError → Bool
  | some .permission => true
  | some .notFound => true
  | _ => false

/-- Whether a per-path outcome aborts the command. -/
def isFatalOutcome : Option PathError → Bool
  | some (.other _) => true
  | _ => false

/-- Embeds the per-path loop shared verbatim by `tagPaths` and `tagFrom`
(tag command source): a permission-denied or file-not-found error is
logged and sets `wereErrors`; any other error returns immediately; the
final `Bool` is `wereErrors` after the loop. -/
def processPaths : List (Option PathError) → Bool → Except String Bool
  | [], wereErrors => .ok wereErrors
  | none :: rest, wereErrors => processPaths rest wereErrors
  | some .permission :: rest, _ => processPaths rest true
  | some .notFound :: rest, _ => processPaths rest true
  | some (.other msg) :: _, _ => .error msg

/-- The command outcome derived from the loop: `if wereErrors { return
errBlank }` maps to the non-zero warnings outcome, a propagated error to
the fatal outcome. -/
inductive CmdOutcome
  | success
  | warningsEmitted
  | fatal (msg : String)
deriving DecidableEq, Repr

/-- Embeds the tail of `tagPaths`/`tagFrom`: run the per-path loop
(starting from the `wereErrors` flag the spec-resolution phase left) and
convert the result to the command outcome. -/
def tagCmdOutcome (results : List (Option PathError)) (wereErrors : Bool) :
    CmdOutcome :=
  match processPaths results wereErrors with
  | .ok true => .warningsEmitted
  | .ok false => .success
  | .error msg => .fatal msg

/-- Helper for claim C7: once `wereErrors` is set it stays set, so the
loop never reports a clean run. -/
theorem processPaths_true_not_ok_false (results : List (Option PathError)) :
    processPaths results true ≠ .ok false := by
  induction results with
  | nil => intro h; cases h
  | cons r rest ih =>
    cases r with
    | none => exact ih
    | some e =>
      cases e with
      | permission => exact ih
      | notFound => exact ih
      | other msg => intro h; cases h

/-- Claim C7: per-path permission-denied and not-found errors are
warnings and the loop continues to the end; any other per-path error
aborts the command with that error; and a successful (zero) outcome is
only possible when no warning was emitted at all. -/
theorem tag_partial_failure_policy (results : List (Option PathError)) (w : Bool) :
    ((∀ r ∈ results, isFatalOutcome r = false) →
        processPaths results w = .ok (w || results.any isWarningOutcome))
    ∧ (∀ pre msg post, (∀ r ∈ pre, isFatalOutcome r = false) →
        processPaths (pre ++ some (.other msg) :: post) w = .error msg)
    ∧ (tagCmdOutcome results w = .success →
        w = false ∧ results.any isWarningOutcome = false) := by
  refine ⟨?_, ?_, ?_⟩
  · induction results generalizing w with
    | nil => intro _; simp [processPaths]
    | cons r rest ih =>
      intro hnf
      have hrest : ∀ x ∈ rest, isFatalOutcome x = false :=
        fun x hx => hnf x (List.mem_cons_of_mem r hx)
      cases r with
      | none =>
        simp only [processPaths, List.any_cons, isWarningOutcome]
        rw [ih w hrest]
        simp
      | some e =>
        cases e with
        | permission =>
          simp only [processPaths, List.any_cons, isWarningOutcome]
          rw [ih true hrest]
          simp
        | notFound =>
          simp only [processPaths, List.any_cons, isWarningOutcome]
          rw [ih true hrest]
          simp
        | other msg =>
          have := hnf (some (.other msg)) (List.mem_cons_self _ _)
          simp [isFatalOutcome] at this
  · intro pre msg post
    induction pre generalizing w with
    | nil => intro _; rfl
    | cons r rest ih =>
      intro hnf
      have hrest : ∀ x ∈ rest, isFatalOutcome x = false :=
        fun x hx => hnf x (List.mem_cons_of_mem r hx)
      cases r with
      | none => exact ih w hrest
      | some e =>
        cases e with
        | permission => exact ih true hrest
        | notFound => exact ih true hrest
        | other m =>
          have := hnf (some (.other m)) (List.mem_cons_self _ _)
          simp [isFatalOutcome] at this
  · intro hsucc
    unfold tagCmdOutcome at hsucc
    cases hps : processPaths results w with
    | error msg => rw [hps] at hsucc; cases hsucc
    | ok b =>
      rw [hps] at hsucc
      cases b with
      | true => cases hsucc
      | false =>
        cases w with
        | true => exact absurd hps (processPaths_true_not_ok_false results)
        | false =>
          refine ⟨rfl, ?_⟩
          by_contra hany
          rw [Bool.not_eq_false, List.any_eq_true] at hany
          obtain ⟨r, hrmem, hrwarn⟩ := hany
          obtain ⟨pre, post, hsplit⟩ := List.append_of_mem hrmem
          subst hsplit
          clear hrmem
          induction pre with
          | nil =>
            cases r with
            | none => simp [isWarningOutcome] at hrwarn
            | some e =>
              cases e with
              | permission =>
                exact absurd hps (processPaths_true_not_ok_false post)
              | notFound =>
                exact absurd hps (processPaths_true_not_ok_false post)
              | other msg => simp [isWarningOutcome] at hrwarn
          | cons q qs ih2 =>
            cases q with
            | none => exact ih2 hps
            | some e =>
              cases e with
              | permission =>
                exact absurd hps (processPaths_true_not_ok_false
                  (qs ++ r :: post))
              | notFound =>
                exact absurd hps (processPaths_true_not_ok_false
                  (qs ++ r :: post))
              | other msg => cases hps

/-- Witness for claim C7: a run with one warning of each kind finishes
with the non-zero flag, and a run hitting an unclassified error stops
with that error. -/
theorem tag_partial_failure_policy_witness :
    processPaths [some .permission, none, some .notFound] false =
      .ok (false || [some .permission, none,
        some PathError.notFound].any isWarningOutcome)
    ∧ processPaths ([some .notFound] ++ some (.other "stat failed") :: [none])
        false = .error "stat failed" := by
  have h := tag_partial_failure_policy
    [some .permission, none, some .notFound] false
  have h2 := tag_partial_failure_policy
    ([some .notFound] ++ some (.other "stat failed") :: [none]) false
  exact ⟨h.1 (by decide), h2.2.1 [some .notFound] "stat failed" [none] (by decide)⟩

/-- The index of the first `'='`, as computed by
`strings.Index(tagArg, "=")` (`none` embeds Go's -1). -/
def indexOfEq : List Char → Option Nat
  | [] => none
  | c :: cs => if c == '=' then some 0 else (indexOfEq cs).map (fun i => i + 1)

/-- Embeds the spec-splitting `switch` of `tagPaths` (tag command
source): index -1 or 0 makes the whole argument the tag name with an
empty value name; otherwise the argument is split at the first `'='`. -/
def parseTagArg (tagArg : String) : String × String :=
  match indexOfEq tagArg.data with
  | none => (tagArg, "")
  | some 0 => (tagArg, "")
  | some i => (⟨tagArg.data.take i⟩, ⟨tagArg.data.drop (i + 1)⟩)

/-- Modelled from the spec (section 3): the characters a tag name may
never contain — whitespace, the comparison operator symbols,
parentheses, comma and slash. -/
def forbiddenNameChar (c : Char) : Bool :=
  c.isWhitespace || c == '=' || c == '<' || c == '>' ||
  c == '(' || c == ')' || c == ',' || c == '/'

/-- Modelled from the spec (section 3): a legal tag name is non-empty,
is not `.` or `..`, and contains no forbidden character.  (The positive
Unicode-category requirement is not needed by any claim and is left
out.) -/
def validTagName (name : String) : Bool :=
  name != "" && name != "." && name != ".." &&
  name.data.all (fun c => !forbiddenNameChar c)

/-- Embeds `Storage.TagByName`: first tag row with the given name. -/
def TagByName (db : DB) (name : String) : Option Tag :=
  db.tags.find? (fun t => t.name == name)

/-- Modelled from the spec (section 4.B): looking up the empty value
name yields the reserved sentinel (id 0) without touching storage;
otherwise the value row with that name. -/
def ValueByName (db : DB) (name : String) : Option Value :=
  if name == "" then some ⟨0, ""⟩
  else db.values.find? (fun v => v.name == name)

/-- Next free tag id for an auto-created tag. -/
def nextTagId (db : DB) : Nat :=
  db.tags.foldl (fun m t => max m t.id) 0 + 1

/-- Next free value id for an auto-created value. -/
def nextValueId (db : DB) : Nat :=
  db.values.foldl (fun m v => max m v.id) 0 + 1

/-- What one `tagArgs` loop iteration of `tagPaths` contributes:
a pair appended to `tagValuePairs`; a warning (`wereErrors = true`,
`continue`); or an error returned from the command. -/
inductive SpecResult
  | pair (p : TagValuePair)
  | warned
  | aborted
deriving DecidableEq, Repr

/-- The value-resolution half of the loop body: look the value name up,
auto-create it when allowed (modelled from the spec: `AddValue`
validates nothing a claim depends on, so creation succeeds), else
warn. -/
def resolveValue (db : DB) (autoCreateValues : Bool) (tagId : Nat)
    (valueName : String) : SpecResult :=
  match ValueByName db valueName with
  | some v => .pair ⟨tagId, v.id⟩
  | none =>
    if autoCreateValues then .pair ⟨tagId, nextValueId db⟩
    else .warned

/-- Embeds one iteration of the `tagArgs` loop of `tagPaths` (tag
command source): split the argument, resolve or auto-create the tag
(`store.AddTag` — modelled from the spec — rejects an invalid name,
which propagates as an error), then resolve the value. -/
def processTagArg (db : DB) (autoCreateTags autoCreateValues : Bool)
    (tagArg : String) : SpecResult :=
  let parsed := parseTagArg tagArg
  match TagByName db parsed.1 with
  | some t => resolveValue db autoCreateValues t.id parsed.2
  | none =>
    if autoCreateTags then
      if validTagName parsed.1 then
        resolveValue db autoCreateValues (nextTagId db) parsed.2
      else .aborted
    else .warned

/-- A name starting with `'='` contains a forbidden character, so it is
never a valid tag name. -/
theorem validTagName_eq_head_false (s : String) (cs : List Char)
    (h : s.data = '=' :: cs) : validTagName s = false := by
  unfold validTagName
  rw [h]
  simp [forbiddenNameChar]

/-- Claim C8: a tag specification beginning with `'='` is kept whole as
the tag name (the `case -1, 0` branch), and — in a database whose tag
names are all legal — the loop never applies it as a tag: it either
warns (auto-create off) or reports an invalid-name error (auto-create
on). -/
theorem leading_eq_spec_invalid (db : DB) (act acv : Bool) (arg : String)
    (cs : List Char) (harg : arg.data = '=' :: cs)
    (hdb : ∀ t ∈ db.tags, validTagName t.name = true) :
    (parseTagArg arg).1 = arg
    ∧ (∀ p, processTagArg db act acv arg ≠ .pair p) := by
  have hparse : parseTagArg arg = (arg, "") := by
    unfold parseTagArg
    rw [harg]
    simp [indexOfEq]
  have hvalid : validTagName arg = false := validTagName_eq_head_false arg cs harg
  have hlook : TagByName db arg = none := by
    unfold TagByName
    cases hfind : db.tags.find? (fun t => t.name == arg) with
    | none => rfl
    | some t =>
      have hname : t.name = arg := by
        have := List.find?_some hfind
        simpa using this
      have hmem : t ∈ db.tags := List.mem_of_find?_eq_some hfind
      have := hdb t hmem
      rw [hname, hvalid] at this
      cases this
  refine ⟨by rw [hparse], ?_⟩
  intro p
  unfold processTagArg
  rw [hparse]
  simp only []
  rw [hlook]
  cases act with
  | false => intro h; cases h
  | true =>
    rw [if_pos rfl, if_neg (by simp [hvalid])]
    intro h; cases h

/-- Witness for claim C8 at the concrete argument `=100`. -/
theorem leading_eq_spec_invalid_witness :
    (parseTagArg "=100").1 = "=100"
    ∧ ∀ p, processTagArg ⟨[], [⟨1, "size"⟩], [], [], []⟩ true true "=100" ≠
        .pair p := by
  exact leading_eq_spec_invalid ⟨[], [⟨1, "size"⟩], [], [], []⟩ true true
    "=100" ['1', '0', '0'] (by decide) (by decide)

/-- Modelled from the spec (section 4.D): the comparison operators of
the query language. -/
inductive CmpOp
  | eq
  | ne
  | lt
  | gt
  | le
  | ge
deriving DecidableEq, Repr

/-- Modelled from the spec (section 4.D): the tokens of the query
language. -/
inductive Token
  | ident (s : String)
  | op (o : CmpOp)
  | lparen
  | rparen
  | andTok
  | orTok
  | notTok
deriving DecidableEq, Repr

/-- Modelled from the spec (section 4.D): reserved keywords and the
comparison word aliases are recognised only as whole tokens; any other
word is an identifier. -/
def classifyWord (s : String) : Token :=
  if s == "and" then .andTok
  else if s == "or" then .orTok
  else if s == "not" then .notTok
  else if s == "eq" then .op .eq
  else if s == "ne" then .op .ne
  else if s == "lt" then .op .lt
  else if s == "gt" then .op .gt
  else if s == "le" then .op .le
  else if s == "ge" then .op .ge
  else .ident s

/-- A character that continues a word: anything that is not whitespace,
an operator symbol or a parenthesis (the characters the retokenisation
splits on). -/
def isWordChar (c : Char) : Bool :=
  !(c.isWhitespace || c == '=' || c == '<' || c == '>' || c == '!' ||
    c == '(' || c == ')')

/-- The token emitted for an operator-start character not followed by
`'='`.  A bare `'!'` has no meaning in the grammar and is kept as an
identifier. -/
def emitPending : Char → List Token
  | '<' => [.op .lt]
  | '>' => [.op .gt]
  | '!' => [.ident "!"]
  | _ => [.op .eq]

/-- The operator formed by an operator-start character followed by
`'='`: `==`, `<=`, `>=`, `!=`. -/
def twoCharOp : Char → CmpOp
  | '<' => .le
  | '>' => .ge
  | '!' => .ne
  | _ => .eq

/-- The token (if any) for a completed word. -/
def wordToks (w : List Char) : List Token :=
  if w.isEmpty then [] else [classifyWord ⟨w⟩]

/-- Lexer state: a possibly pending operator-start character, the word
being accumulated, and the tokens emitted so far. -/
structure LexState where
  pending : Option Char
  word : List Char
  toks : List Token
deriving DecidableEq, Repr

/-- Begin scanning at a fresh character (no pending operator, no open
word). -/
def startChar (toks : List Token) (c : Char) : LexState :=
  if c.isWhitespace then ⟨none, [], toks⟩
  else if c == '(' then ⟨none, [], toks ++ [.lparen]⟩
  else if c == ')' then ⟨none, [], toks ++ [.rparen]⟩
  else if c == '=' || c == '<' || c == '>' || c == '!' then ⟨some c, [], toks⟩
  else ⟨none, [c], toks⟩

/-- Modelled from the spec (section 4.D): one step of retokenising an
argument — each argument is split on the operator symbols and on
whitespace, with two-character operators recognised greedily. -/
def lexStep (st : LexState) (c : Char) : LexState :=
  match st.pending with
  | some p =>
    if c == '=' then ⟨none, [], st.toks ++ [.op (twoCharOp p)]⟩
    else startChar (st.toks ++ emitPending p) c
  | none =>
    if isWordChar c then ⟨none, st.word ++ [c], st.toks⟩
    else startChar (st.toks ++ wordToks st.word) c

/-- Flush the lexer state at the end of an argument. -/
def finishLex (st : LexState) : List Token :=
  match st.pending with
  | some p => st.toks ++ emitPending p
  | none => st.toks ++ wordToks st.word

/-- Modelled from the spec (section 4.D): retokenise one argument
string. -/
def tokenizeArg (s : String) : List Token :=
  finishLex (s.data.foldl lexStep ⟨none, [], []⟩)

/-- Modelled from the spec (section 4.D): each argument of the argument
vector is independently retokenised and the token streams are
concatenated in order. -/
def tokenize (args : List String) : List Token :=
  args.foldr (fun a acc => tokenizeArg a ++ acc) []

/-- Modelled from the spec (section 4.D): the query AST. -/
inductive Expr
  | tagE (name : String)
  | cmpE (name : String) (o : CmpOp) (lit : String)
  | andE (l r : Expr)
  | orE (l r : Expr)
  | notE (e : Expr)
deriving DecidableEq, Repr

/-- Modelled from the spec (section 4.D): fuel-indexed recursive-descent
parser for the grammar, one function with an explicit production level
so that each call structurally decreases the fuel.  Levels: 0 or-expr,
1 or-loop, 2 and-expr, 3 and-loop, 4 not-expr, 5 cmp-expr, 6 primary.
The `acc` argument is the accumulated left operand of the loop levels
(and a placeholder elsewhere). -/
def parseF : Nat → Nat → Expr → List Token → Option (Expr × List Token)
  | 0, _, _, _ => none
  | Nat.succ fuel, 0, _, toks =>
    match parseF fuel 2 (.tagE "") toks with
    | some (l, rest) => parseF fuel 1 l rest
    | none => none
  | Nat.succ fuel, 1, acc, toks =>
    match toks with
    | .orTok :: rest =>
      match parseF fuel 2 (.tagE "") rest with
      | some (r, rest2) => parseF fuel 1 (.orE acc r) rest2
      | none => none
    | _ => some (acc, toks)
  | Nat.succ fuel, 2, _, toks =>
    match parseF fuel 4 (.tagE "") toks with
    | some (l, rest) => parseF fuel 3 l rest
    | none => none
  | Nat.succ fuel, 3, acc, toks =>
    match toks with
    | .andTok :: rest =>
      match parseF fuel 4 (.tagE "") rest with
      | some (r, rest2) => parseF fuel 3 (.andE acc r) rest2
      | none => none
    | .notTok :: _ =>
      match parseF fuel 4 (.tagE "") toks with
      | some (r, rest2) => parseF fuel 3 (.andE acc r) rest2
      | none => none
    | .ident _ :: _ =>
      match parseF fuel 4 (.tagE "") toks with
      | some (r, rest2) => parseF fuel 3 (.andE acc r) rest2
      | none => none
    | .lparen :: _ =>
      match parseF fuel 4 (.tagE "") toks with
      | some (r, rest2) => parseF fuel 3 (.andE acc r) rest2
      | none => none
    | _ => some (acc, toks)
  | Nat.succ fuel, 4, _, toks =>
    match toks with
    | .notTok :: rest =>
      match parseF fuel 4 (.tagE "") rest with
      | some (e, rest2) => some (.notE e, rest2)
      | none => none
    | _ => parseF fuel 5 (.tagE "") toks
  | Nat.succ fuel, 5, _, toks =>
    match parseF fuel 6 (.tagE "") toks with
    | some (.tagE n, .op o :: .ident lit :: rest2) => some (.cmpE n o lit, rest2)
    | some (e, rest) => some (e, rest)
    | none => none
  | Nat.succ fuel, 6, _, toks =>
    match toks with
    | .ident s :: rest => some (.tagE s, rest)
    | .lparen :: rest =>
      match parseF fuel 0 (.tagE "") rest with
      | some (e, .rparen :: rest2) => some (e, rest2)
      | _ => none
    | _ => none
  | Nat.succ _, _, _, _ => none

/-- Modelled from the spec (section 4.D): parse a full query; the whole
token stream must be consumed. -/
def parseQuery (toks : List Token) : Option Expr :=
  match parseF (10 * toks.length + 10) 0 (.tagE "") toks with
  | some (e, []) => some e
  | _ => none

/-- Numeric value of a digit string. -/
def digitsToNat (ds : List Char) : Nat :=
  ds.foldl (fun acc c => acc * 10 + (c.toNat - '0'.toNat)) 0

/-- Modelled from the spec (section 4.D): parse a string as a signed
decimal number (an optional sign followed by one or more digits). -/
def parseDecimal (s : String) : Option Int :=
  match s.data with
  | [] => none
  | '-' :: ds =>
    if !ds.isEmpty && ds.all (fun c => c.isDigit) then some (-(digitsToNat ds : Int))
    else none
  | '+' :: ds =>
    if !ds.isEmpty && ds.all (fun c => c.isDigit) then some (digitsToNat ds : Int)
    else none
  | ds =>
    if ds.all (fun c => c.isDigit) then some (digitsToNat ds : Int)
    else none

/-- Numeric ordering comparison. -/
def intCmp (o : CmpOp) (a b : Int) : Bool :=
  match o with
  | .lt => decide (a < b)
  | .gt => decide (b < a)
  | .le => decide (a ≤ b)
  | .ge => decide (b ≤ a)
  | .eq => a == b
  | .ne => a != b

/-- Lexicographic (code-point) order on character lists. -/
def charListLt : List Char → List Char → Bool
  | [], [] => false
  | [], _ :: _ => true
  | _ :: _, [] => false
  | a :: as, b :: bs =>
    if a.toNat < b.toNat then true
    else if b.toNat < a.toNat then false
    else charListLt as bs

/-- Lexicographic order on strings. -/
def strLt (a b : String) : Bool := charListLt a.data b.data

/-- Lexicographic comparison for each operator. -/
def strCmp (o : CmpOp) (v lit : String) : Bool :=
  match o with
  | .lt => strLt v lit
  | .gt => strLt lit v
  | .le => !strLt lit v
  | .ge => !strLt v lit
  | .eq => v == lit
  | .ne => v != lit

/-- Modelled from the spec (section 4.D): `=`/`!=` compare the value
strings; the ordering operators compare numerically when both operands
parse as signed decimals and lexicographically otherwise. -/
def valueMatches (o : CmpOp) (v lit : String) : Bool :=
  match o with
  | .eq => v == lit
  | .ne => v != lit
  | _ =>
    match parseDecimal v, parseDecimal lit with
    | some a, some b => intCmp o a b
    | _, _ => strCmp o v lit

/-- Modelled from the spec (section 4.E): whether a file satisfies a
query expression.  A tag node matches through the implication closure of
the named tag; a comparison node is not implication-expanded and
requires a stored value row; an unknown name yields the empty set. -/
def evalExpr (db : DB) (fileId : Nat) : Expr → Bool
  | .tagE name =>
    match TagByName db name with
    | none => false
    | some t => db.fileTags.any (fun ft =>
        ft.fileId == fileId &&
        (tagClosure db.implications [t.id]).contains ft.tagId)
  | .cmpE name o lit =>
    match TagByName db name with
    | none => false
    | some t => db.fileTags.any (fun ft =>
        ft.fileId == fileId && ft.tagId == t.id &&
        (match db.values.find? (fun v => v.id == ft.valueId) with
         | some v => valueMatches o v.name lit
         | none => false))
  | .andE l r => evalExpr db fileId l && evalExpr db fileId r
  | .orE l r => evalExpr db fileId l || evalExpr db fileId r
  | .notE e => !evalExpr db fileId e

/-- Insert a path into a sorted list (ascending). -/
def insertPath (s : String) : List String → List String
  | [] => [s]
  | x :: xs => if strLt s x then s :: x :: xs else x :: insertPath s xs

/-- Sort paths ascending. -/
def sortPaths (l : List String) : List String := l.foldr insertPath []

/-- Modelled from the spec (sections 4.E and 4.G): the output of the
`files` command — tokenise the argument vector, parse it (an empty query
matches every file), evaluate the expression against every file and
print the matching paths sorted ascending.  `none` embeds a parse
error. -/
def filesOutput (db : DB) (args : List String) : Option (List String) :=
  let toks := tokenize args
  if toks.isEmpty then some (sortPaths (db.files.map (fun f => f.path)))
  else
    match parseQuery toks with
    | none => none
    | some e =>
      some (sortPaths ((db.files.filter (fun f => evalExpr db f.id e)).map
        (fun f => f.path)))

/-- The ordering comparison operators (`<`, `>`, `<=`, `>=` and their
word aliases). -/
def isOrderingOp : CmpOp → Bool
  | .lt => true
  | .gt => true
  | .le => true
  | .ge => true
  | _ => false

/-- The database state produced by the set-up shared by the comparison
tests in the source (`TestFilesTagLessThanValue`,
`TestFilesTagGreaterThanOrEqualToValue` and the others): files `/tmp/a`
and `/tmp/b`, tag `size`, values `99` and `100`, `/tmp/a` tagged
`size=99` and `/tmp/b` tagged `size=100`. -/
def comparisonTestDb : DB :=
  ⟨[⟨1, "/tmp/a"⟩, ⟨2, "/tmp/b"⟩], [⟨1, "size"⟩],
   [⟨1, "99"⟩, ⟨2, "100"⟩], [⟨1, 1, 1⟩, ⟨2, 1, 2⟩], []⟩

/-- Claim C6: an ordering comparison is numeric when both the stored
value and the literal parse as signed decimals, and lexicographic
otherwise; on the comparison-test database the file with value 99
matches `size < 100` (numerically, not lexicographically) and
`size >= 99` matches both files, as the source tests expect. -/
theorem ordering_comparison_semantics (o : CmpOp) (ho : isOrderingOp o = true)
    (v lit : String) :
    (∀ a b, parseDecimal v = some a → parseDecimal lit = some b →
        valueMatches o v lit = intCmp o a b)
    ∧ ((parseDecimal v = none ∨ parseDecimal lit = none) →
        valueMatches o v lit = strCmp o v lit)
    ∧ filesOutput comparisonTestDb ["size", "<", "100"] = some ["/tmp/a"]
    ∧ filesOutput comparisonTestDb ["size", ">=", "99"] =
        some ["/tmp/a", "/tmp/b"] := by
  refine ⟨?_, ?_, by decide, by decide⟩
  · intro a b ha hb
    cases o <;> try exact Bool.noConfusion ho
    all_goals simp [valueMatches, ha, hb]
  · intro h
    cases o <;> try exact Bool.noConfusion ho
    all_goals
      cases hv : parseDecimal v with
      | none =>
        cases hl : parseDecimal lit with
        | none => simp [valueMatches, hv, hl]
        | some b => simp [valueMatches, hv, hl]
      | some a =>
        cases hl : parseDecimal lit with
        | none => simp [valueMatches, hv, hl]
        | some b =>
          rcases h with h | h
          · rw [hv] at h; exact Option.noConfusion h
          · rw [hl] at h; exact Option.noConfusion h

/-- Witness for claim C6: numeric comparison at `99 < 100`, the
lexicographic fallback, and the test-scenario output. -/
theorem ordering_comparison_semantics_witness :
    valueMatches .lt "99" "100" = intCmp .lt 99 100
    ∧ valueMatches .lt "abc" "100" = strCmp .lt "abc" "100"
    ∧ filesOutput comparisonTestDb ["size", "<", "100"] = some ["/tmp/a"] := by
  have h := ordering_comparison_semantics .lt (by decide) "99" "100"
  have h2 := ordering_comparison_semantics .lt (by decide) "abc" "100"
  exact ⟨h.1 99 100 (by decide) (by decide), h2.2.1 (Or.inl (by decide)), h.2.2.1⟩

/-- The symbolic spelling of each comparison operator. -/
def opSymbol : CmpOp → String
  | .eq => "="
  | .ne => "!="
  | .lt => "<"
  | .gt => ">"
  | .le => "<="
  | .ge => ">="

/-- The word-alias spelling of each comparison operator. -/
def opAlias : CmpOp → String
  | .eq => "eq"
  | .ne => "ne"
  | .lt => "lt"
  | .gt => "gt"
  | .le => "le"
  | .ge => "ge"

/-- Folding word characters accumulates them into the open word. -/
theorem foldl_lexStep_word (l : List Char) (hl : ∀ c ∈ l, isWordChar c = true) :
    ∀ w toks, l.foldl lexStep ⟨none, w, toks⟩ = ⟨none, w ++ l, toks⟩ := by
  induction l with
  | nil => intro w toks; simp
  | cons c cs ih =>
    intro w toks
    rw [List.foldl_cons]
    have hc : isWordChar c = true := hl c (by simp)
    have hstep : lexStep ⟨none, w, toks⟩ c = ⟨none, w ++ [c], toks⟩ := by
      simp [lexStep, hc]
    rw [hstep, ih (fun d hd => hl d (by simp [hd])) (w ++ [c]) toks]
    simp

/-- A non-empty word flushes to its classification token. -/
theorem wordToks_of_ne (s : String) (hne : s.data ≠ []) :
    wordToks s.data = [classifyWord s] := by
  obtain ⟨l⟩ := s
  cases l with
  | nil => exact absurd rfl hne
  | cons a t => rfl

/-- An argument that is one word tokenises to its classification. -/
theorem tokenizeArg_word (s : String) (h : ∀ c ∈ s.data, isWordChar c = true)
    (hne : s.data ≠ []) :
    tokenizeArg s = [classifyWord s] := by
  unfold tokenizeArg
  rw [foldl_lexStep_word s.data h [] []]
  simp [finishLex, wordToks_of_ne s hne]

/-- An argument that is exactly an operator symbol tokenises to that
operator token. -/
theorem tokenizeArg_opSymbol (o : CmpOp) : tokenizeArg (opSymbol o) = [.op o] := by
  cases o <;> decide

/-- Folding an operator symbol followed by a space emits the operator
token and returns to the fresh state. -/
theorem foldl_after_sym (o : CmpOp) (T : List Token) (rest : List Char) :
    ((opSymbol o).data ++ ' ' :: rest).foldl lexStep ⟨none, [], T⟩ =
    rest.foldl lexStep ⟨none, [], T ++ [.op o]⟩ := by
  cases o with
  | eq =>
    show (['='] ++ ' ' :: rest).foldl lexStep ⟨none, [], T⟩ = _
    simp [List.foldl_cons, lexStep, startChar, wordToks, isWordChar, emitPending,
      twoCharOp]
  | ne =>
    show (['!', '='] ++ ' ' :: rest).foldl lexStep ⟨none, [], T⟩ = _
    simp [List.foldl_cons, lexStep, startChar, wordToks, isWordChar, emitPending,
      twoCharOp]
  | lt =>
    show (['<'] ++ ' ' :: rest).foldl lexStep ⟨none, [], T⟩ = _
    simp [List.foldl_cons, lexStep, startChar, wordToks, isWordChar, emitPending,
      twoCharOp]
  | gt =>
    show (['>'] ++ ' ' :: rest).foldl lexStep ⟨none, [], T⟩ = _
    simp [List.foldl_cons, lexStep, startChar, wordToks, isWordChar, emitPending,
      twoCharOp]
  | le =>
    show (['<', '='] ++ ' ' :: rest).foldl lexStep ⟨none, [], T⟩ = _
    simp [List.foldl_cons, lexStep, startChar, wordToks, isWordChar, emitPending,
      twoCharOp]
  | ge =>
    show (['>', '='] ++ ' ' :: rest).foldl lexStep ⟨none, [], T⟩ = _
    simp [List.foldl_cons, lexStep, startChar, wordToks, isWordChar, emitPending,
      twoCharOp]

/-- Folding an operator word alias followed by a space also emits the
operator token: the alias accumulates as a word and its flush
classifies it as the operator. -/
theorem foldl_after_alias (o : CmpOp) (T : List Token) (rest : List Char) :
    ((opAlias o).data ++ ' ' :: rest).foldl lexStep ⟨none, [], T⟩ =
    rest.foldl lexStep ⟨none, [], T ++ [.op o]⟩ := by
  cases o with
  | eq =>
    show (['e', 'q'] ++ ' ' :: rest).foldl lexStep ⟨none, [], T⟩ = _
    have hw : wordToks ['e', 'q'] = [Token.op CmpOp.eq] := by decide
    simp [List.foldl_cons, lexStep, startChar, isWordChar, hw]
  | ne =>
    show (['n', 'e'] ++ ' ' :: rest).foldl lexStep ⟨none, [], T⟩ = _
    have hw : wordToks ['n', 'e'] = [Token.op CmpOp.ne] := by decide
    simp [List.foldl_cons, lexStep, startChar, isWordChar, hw]
  | lt =>
    show (['l', 't'] ++ ' ' :: rest).foldl lexStep ⟨none, [], T⟩ = _
    have hw : wordToks ['l', 't'] = [Token.op CmpOp.lt] := by decide
    simp [List.foldl_cons, lexStep, startChar, isWordChar, hw]
  | gt =>
    show (['g', 't'] ++ ' ' :: rest).foldl lexStep ⟨none, [], T⟩ = _
    have hw : wordToks ['g', 't'] = [Token.op CmpOp.gt] := by decide
    simp [List.foldl_cons, lexStep, startChar, isWordChar, hw]
  | le =>
    show (['l', 'e'] ++ ' ' :: rest).foldl lexStep ⟨none, [], T⟩ = _
    have hw : wordToks ['l', 'e'] = [Token.op CmpOp.le] := by decide
    simp [List.foldl_cons, lexStep, startChar, isWordChar, hw]
  | ge =>
    show (['g', 'e'] ++ ' ' :: rest).foldl lexStep ⟨none, [], T⟩ = _
    have hw : wordToks ['g', 'e'] = [Token.op CmpOp.ge] := by decide
    simp [List.foldl_cons, lexStep, startChar, isWordChar, hw]

/-- A single space-separated string `tag OP value` retokenises to the
same three tokens as the separate arguments, for the symbolic operator
spelling. -/
theorem tokenizeArg_spaced_sym (t v : String) (o : CmpOp)
    (ht : ∀ c ∈ t.data, isWordChar c = true) (htne : t.data ≠ [])
    (hv : ∀ c ∈ v.data, isWordChar c = true) (hvne : v.data ≠ []) :
    tokenizeArg (String.mk (t.data ++ ' ' :: ((opSymbol o).data ++ ' ' :: v.data))) =
      [classifyWord t, .op o, classifyWord v] := by
  show finishLex ((t.data ++ ' ' :: ((opSymbol o).data ++ ' ' :: v.data)).foldl
    lexStep ⟨none, [], []⟩) = _
  rw [List.foldl_append, foldl_lexStep_word t.data ht [] [], List.foldl_cons]
  have hsp : lexStep ⟨none, [] ++ t.data, []⟩ ' ' = ⟨none, [], wordToks t.data⟩ := by
    simp [lexStep, startChar, isWordChar]
  rw [hsp, foldl_after_sym o (wordToks t.data) v.data]
  have hfold := foldl_lexStep_word v.data hv [] (wordToks t.data ++ [Token.op o])
  rw [hfold]
  simp [finishLex, wordToks_of_ne t htne, wordToks_of_ne v hvne]

/-- The same, for the word-alias operator spelling. -/
theorem tokenizeArg_spaced_alias (t v : String) (o : CmpOp)
    (ht : ∀ c ∈ t.data, isWordChar c = true) (htne : t.data ≠ [])
    (hv : ∀ c ∈ v.data, isWordChar c = true) (hvne : v.data ≠ []) :
    tokenizeArg (String.mk (t.data ++ ' ' :: ((opAlias o).data ++ ' ' :: v.data))) =
      [classifyWord t, .op o, classifyWord v] := by
  show finishLex ((t.data ++ ' ' :: ((opAlias o).data ++ ' ' :: v.data)).foldl
    lexStep ⟨none, [], []⟩) = _
  rw [List.foldl_append, foldl_lexStep_word t.data ht [] [], List.foldl_cons]
  have hsp : lexStep ⟨none, [] ++ t.data, []⟩ ' ' = ⟨none, [], wordToks t.data⟩ := by
    simp [lexStep, startChar, isWordChar]
  rw [hsp, foldl_after_alias o (wordToks t.data) v.data]
  have hfold := foldl_lexStep_word v.data hv [] (wordToks t.data ++ [Token.op o])
  rw [hfold]
  simp [finishLex, wordToks_of_ne t htne, wordToks_of_ne v hvne]

/-- Claim C5: the three argument-vector forms of a comparison query —
separate tokens, one space-separated string, and the word alias —
retokenise identically, so for every database state the files-command
output is identical. -/
theorem comparison_tokenisation_equiv (db : DB) (o : CmpOp) (t v : String)
    (ht : ∀ c ∈ t.data, isWordChar c = true) (htne : t.data ≠ [])
    (hv : ∀ c ∈ v.data, isWordChar c = true) (hvne : v.data ≠ []) :
    filesOutput db [t, opSymbol o, v] =
      filesOutput db [String.mk (t.data ++ ' ' :: ((opSymbol o).data ++ ' ' :: v.data))]
    ∧ filesOutput db [t, opSymbol o, v] =
      filesOutput db [String.mk (t.data ++ ' ' :: ((opAlias o).data ++ ' ' :: v.data))] := by
  have h1 : tokenize [t, opSymbol o, v] = [classifyWord t, .op o, classifyWord v] := by
    unfold tokenize
    simp only [List.foldr_cons, List.foldr_nil]
    rw [tokenizeArg_word t ht htne, tokenizeArg_word v hv hvne, tokenizeArg_opSymbol o]
    simp
  have h2 : tokenize [String.mk (t.data ++ ' ' :: ((opSymbol o).data ++ ' ' :: v.data))] =
      [classifyWord t, .op o, classifyWord v] := by
    unfold tokenize
    simp only [List.foldr_cons, List.foldr_nil]
    rw [tokenizeArg_spaced_sym t v o ht htne hv hvne]
    simp
  have h3 : tokenize [String.mk (t.data ++ ' ' :: ((opAlias o).data ++ ' ' :: v.data))] =
      [classifyWord t, .op o, classifyWord v] := by
    unfold tokenize
    simp only [List.foldr_cons, List.foldr_nil]
    rw [tokenizeArg_spaced_alias t v o ht htne hv hvne]
    simp
  constructor
  · unfold filesOutput
    rw [h1, h2]
  · unfold filesOutput
    rw [h1, h3]

/-- Witness for claim C5 at the test instance `size = 100` against the
comparison-test database, tying the spaced forms to the literal strings
of the source tests. -/
theorem comparison_tokenisation_equiv_witness :
    String.mk (("size" : String).data ++ ' ' ::
        ((opSymbol CmpOp.eq).data ++ ' ' :: ("100" : String).data)) = "size = 100"
    ∧ String.mk (("size" : String).data ++ ' ' ::
        ((opAlias CmpOp.eq).data ++ ' ' :: ("100" : String).data)) = "size eq 100"
    ∧ filesOutput comparisonTestDb ["size", "=", "100"] =
        filesOutput comparisonTestDb ["size = 100"]
    ∧ filesOutput comparisonTestDb ["size", "=", "100"] =
        filesOutput comparisonTestDb ["size eq 100"] := by
  have h := comparison_tokenisation_equiv comparisonTestDb .eq "size" "100"
    (by decide) (by decide) (by decide) (by decide)
  have e1 : String.mk (("size" : String).data ++ ' ' ::
      ((opSymbol CmpOp.eq).data ++ ' ' :: ("100" : String).data)) = "size = 100" := by
    decide
  have e2 : String.mk (("size" : String).data ++ ' ' ::
      ((opAlias CmpOp.eq).data ++ ' ' :: ("100" : String).data)) = "size eq 100" := by
    decide
  refine ⟨e1, e2, ?_, ?_⟩
  · have h1 := h.1
    rw [e1] at h1
    exact h1
  · have h2 := h.2
    rw [e2] at h2
    exact h2
